import Mathlib

/-!
# Verification of `msanomalydetector/spectral_residual.py`

A shallow embedding of the Spectral Residual anomaly detector
(`SpectralResidual` class) together with proofs of the specification
claims about it.

Conventions of the embedding:
* Python floats are modelled as exact numbers: `ℚ` or `ℝ` (and `ℂ` for the
  Fourier transforms), so that all arithmetic facts are exact.
* Python lists / numpy 1-d arrays are `List`.
* Code that can raise `ValueError` returns `Except String _`, carrying the
  error message.
* The collaborator modules `msanomalydetector.util` and
  `msanomalydetector.boundary_utils` are not part of the given sources;
  every definition standing in for them is marked
  `Modelled from the spec:` in its doc comment.
-/

namespace SpectralResidual

/-! ## SeriesExtender: `predict_next` and `extend_series` -/

/-- Embedding of `SpectralResidual.predict_next` (static method).
Source:
```
if len(values) <= 1: raise ValueError(f'data should contain at least 2 numbers')
v_last = values[-1]
n = len(values)
slopes = [(v_last - v) / (n - 1 - i) for i, v in enumerate(values[:-1])]
return values[1] + sum(slopes)
```
Polymorphic over the number field so the same definition serves the exact
(`ℚ`) statements and the real-valued pipeline. -/
def predict_next {α : Type} [Field α] (values : List α) : Except String α :=
  if values.length ≤ 1 then
    .error "data should contain at least 2 numbers"
  else
    let v_last := values.getD (values.length - 1) 0
    let n := values.length
    let slopes := (values.take (n - 1)).enum.map
      (fun p => (v_last - p.2) / ((n - 1 - p.1 : ℕ) : α))
    .ok (values.getD 1 0 + slopes.sum)

/-- Embedding of `SpectralResidual.extend_series` (static method).
Source:
```
if look_ahead < 1: raise ValueError('look_ahead must be at least 1')
extension = [SpectralResidual.predict_next(values[-look_ahead - 2:-1])] * extend_num
return values + extension
```
The Python slice `values[-look_ahead - 2:-1]` on a list of length `n` is
`values[max(0, n - look_ahead - 2) : max(0, n - 1)]`, i.e.
`(values.take (n - 1)).drop (n - (look_ahead + 2))` with truncated `ℕ`
subtraction.  `look_ahead` is modelled as `ℤ` (a Python int can be
negative); after the guard it is `≥ 1` so its `toNat` image is faithful. -/
def extend_series {α : Type} [Field α] (values : List α)
    (extend_num : ℕ := 5) (look_ahead : ℤ := 5) : Except String (List α) :=
  if look_ahead < 1 then
    .error "look_ahead must be at least 1"
  else do
    let p ← predict_next
      ((values.take (values.length - 1)).drop (values.length - (look_ahead.toNat + 2)))
    pure (values ++ List.replicate extend_num p)

/-- The slice `values[-look_ahead - 2:-1]` used by `extend_series`. -/
def tailSlice {α : Type} (values : List α) (look_ahead : ℤ) : List α :=
  (values.take (values.length - 1)).drop (values.length - (look_ahead.toNat + 2))

/-! ## Discrete Fourier transform (numpy conventions)

`np.fft.fft(a)[k] = ∑_j a[j] * exp(-2πi·j·k/n)` and
`np.fft.ifft(a)[j] = (∑_k a[k] * exp(2πi·j·k/n)) / n`. -/

/-- The constant `2πi` of the Fourier kernels. -/
noncomputable def twoPiI : ℂ := 2 * (Real.pi : ℂ) * Complex.I

/-- The `k`-th coefficient of `np.fft.fft x`. -/
noncomputable def fftCoef (x : List ℂ) (k : ℕ) : ℂ :=
  ∑ j ∈ Finset.range x.length,
    x.getD j 0 * Complex.exp (-twoPiI * j * k / x.length)

/-- Embedding of `np.fft.fft`. -/
noncomputable def fft (x : List ℂ) : List ℂ :=
  (List.range x.length).map (fftCoef x)

/-- The `j`-th coefficient of `np.fft.ifft x`. -/
noncomputable def ifftCoef (x : List ℂ) (j : ℕ) : ℂ :=
  (∑ k ∈ Finset.range x.length,
    x.getD k 0 * Complex.exp (twoPiI * j * k / x.length)) / x.length

/-- Embedding of `np.fft.ifft`. -/
noncomputable def ifft (x : List ℂ) : List ℂ :=
  (List.range x.length).map (ifftCoef x)

/-- The mirror index `(L - k) % L`: position of the conjugate-symmetric
partner of frequency `k` in a length-`L` spectrum. -/
def flipIdx (L k : ℕ) : ℕ := (L - k) % L

/-! ## `calculate_expected_value` and its collaborators -/

/-- Modelled from the spec: `deanomaly_entire` from `msanomalydetector.util`
(the util module is not part of the given sources).  Per the spec it
"replace[s] values at `anomalyIndices` with a denoised estimate (external
'remove-and-interpolate' collaborator), producing a clean series of length
L" — i.e. it is length preserving and only rewrites the flagged positions;
the denoised estimate itself is left unspecified by the spec and is
modelled as `0`. -/
def deanomaly_entire (values : List ℝ) (anomaly_index : List ℕ) : List ℝ :=
  values.enum.map (fun p => if p.1 ∈ anomaly_index then 0 else p.2)

/-- The central-band zeroing of
```
fft_coef.real = [v if length * 3 / 8 >= i or i >= length * 5 / 8 else 0
                for i, v in enumerate(fft_coef.real)]
fft_coef.imag = [v if length * 3 / 8 >= i or i >= length * 5 / 8 else 0
                for i, v in enumerate(fft_coef.imag)]
```
Both comprehensions use the same predicate on the index, so together they
zero the complex coefficient exactly when the predicate fails.  Python's
`length * 3 / 8` is true division, modelled exactly in `ℚ`. -/
def filterSpectrum (length : ℕ) (coef : List ℂ) : List ℂ :=
  coef.enum.map (fun p =>
    if (length * 3 : ℚ) / 8 ≥ (p.1 : ℚ) ∨ (p.1 : ℚ) ≥ (length * 5 : ℚ) / 8
    then p.2 else 0)

/-- Embedding of `SpectralResidual.calculate_expected_value`.
Source:
```
values = deanomaly_entire(self.__values__, anomaly_index)
length = len(values)
fft_coef = np.fft.fft(values)
fft_coef.real = [... central band zeroed ...]
fft_coef.imag = [... central band zeroed ...]
exps = np.fft.ifft(fft_coef)
return exps
```
The returned series is the complex inverse transform itself. -/
noncomputable def calculate_expected_value (values : List ℝ)
    (anomaly_index : List ℕ) : List ℂ :=
  let vals := deanomaly_entire values anomaly_index
  let length := vals.length
  let fft_coef := fft (vals.map (fun v => Complex.ofReal v))
  ifft (filterSpectrum length fft_coef)

/-! ## The transform / score pipeline and its collaborators -/

/-- Modelled from the spec: `EPS` from `msanomalydetector.util` (module not
part of the given sources); the spec only requires "a small epsilon" used
to clamp near-zero magnitudes and baselines. -/
noncomputable def EPS : ℝ := 1 / 100000000

/-- Modelled from the spec: `average_filter` from `msanomalydetector.util`
(module not part of the given sources).  Per the spec glossary, a "moving
average filter" produces "for each position, the average of a local window
of surrounding values"; the exact windowing convention is left open by the
spec, and a trailing window of size `min n (i+1)` is chosen here. -/
noncomputable def average_filter (values : List ℝ) (n : ℕ) : List ℝ :=
  (List.range values.length).map
    (fun i => ((values.take (i + 1)).drop (i + 1 - n)).sum / (min n (i + 1) : ℕ))

/-- Embedding of `SpectralResidual.spectral_residual_transform`.
Source:
```
trans = np.fft.fft(values)
mag = np.sqrt(trans.real ** 2 + trans.imag ** 2)
eps_index = np.where(mag <= EPS)[0]
mag[eps_index] = EPS
mag_log = np.log(mag)
mag_log[eps_index] = 0
spectral = np.exp(mag_log - average_filter(mag_log, n=self.__mag_window))
trans.real = trans.real * spectral / mag
trans.imag = trans.imag * spectral / mag
trans.real[eps_index] = 0
trans.imag[eps_index] = 0
wave_r = np.fft.ifft(trans)
mag = np.sqrt(wave_r.real ** 2 + wave_r.imag ** 2)
return mag
```
The elementwise array updates are modelled columnwise: `mag0` is the raw
magnitude, the epsilon clamp and the rescaling are conditional on
`mag0 ≤ EPS` per index (multiplying both real and imaginary parts by the
real factor `spectral/mag` is complex scaling by that factor). -/
noncomputable def spectral_residual_transform (mag_window : ℕ)
    (values : List ℝ) : List ℝ :=
  let trans := fft (values.map (fun v => Complex.ofReal v))
  let mag0 := trans.map (fun z => Real.sqrt (z.re ^ 2 + z.im ^ 2))
  let mag := mag0.map (fun m => if m ≤ EPS then EPS else m)
  let mag_log := (mag0.zip mag).map
    (fun p => if p.1 ≤ EPS then 0 else Real.log p.2)
  let spectral := (mag_log.zip (average_filter mag_log mag_window)).map
    (fun p => Real.exp (p.1 - p.2))
  let trans2 := ((trans.zip mag0).zip (spectral.zip mag)).map
    (fun p => if p.1.2 ≤ EPS then 0
      else p.1.1 * Complex.ofReal (p.2.1 / p.2.2))
  let wave_r := ifft trans2
  wave_r.map (fun z => Real.sqrt (z.re ^ 2 + z.im ^ 2))

/-- Embedding of `SpectralResidual.generate_spectral_score`.
Source:
```
ave_mag = average_filter(mags, n=self.__score_window)
ave_mag[np.where(ave_mag <= EPS)] = EPS
raw_scores = abs(mags - ave_mag) / ave_mag
scores = np.clip(raw_scores / 10.0, 0, 1.0)
return scores
```
`np.clip(x, 0, 1.0)` is `min (max x 0) 1`. -/
noncomputable def generate_spectral_score (score_window : ℕ)
    (mags : List ℝ) : List ℝ :=
  let ave_mag := (average_filter mags score_window).map
    (fun a => if a ≤ EPS then EPS else a)
  let raw_scores := (mags.zip ave_mag).map (fun p => |p.1 - p.2| / p.2)
  raw_scores.map (fun r => min (max (r / 10) 0) 1)

/-! ## Boundary collaborators (modelled) and the detect orchestration -/

/-- Modelled from the spec: `DetectMode` from `msanomalydetector.util`
(module not part of the given sources): "enum {AnomalyOnly,
AnomalyAndMargin}". -/
inductive DetectMode : Type
  | anomaly_only : DetectMode
  | anomaly_and_margin : DetectMode
deriving DecidableEq

/-- Modelled from the spec: `calculate_bounary_unit_entire` from
`msanomalydetector.boundary_utils` (module not part of the given sources).
The spec's contract is only "one dispersion/scale estimate per point";
modelled as the absolute value of each point (the claims proved below do
not depend on the estimate itself, only on its per-point shape). -/
noncomputable def calculate_bounary_unit_entire (values : List ℝ)
    (is_anomaly : List Bool) : List ℝ :=
  values.map (fun v => |v|)

/-- Modelled from the spec: `calculate_margin` from
`msanomalydetector.boundary_utils` (module not part of the given sources):
"converts a unit and a sensitivity parameter (0–100 scale conventionally)
into a symmetric margin width". -/
noncomputable def calculate_margin (unit sensitivity : ℝ) : ℝ :=
  unit * (100 - sensitivity) / 100

/-- Modelled from the spec: `calculate_anomaly_scores` from
`msanomalydetector.boundary_utils` (module not part of the given sources):
a per-point "rescaled anomaly score consistent with boundary semantics,
replacing the raw scores" in margin mode.  The spec's report invariant
(§3/§8: "anomaly score always clamped to [0,1]") is modelled by an
explicit clamp; non-flagged points rescale to 0. -/
noncomputable def calculate_anomaly_scores (values : List ℝ)
    (expected_values : List ℂ) (units : List ℝ)
    (is_anomaly : List Bool) : List ℝ :=
  (values.zip (expected_values.zip (units.zip is_anomaly))).map
    (fun p => if p.2.2.2 then
        min (max (Complex.abs (p.2.1 - Complex.ofReal p.1) / (1 + |p.2.2.1|)) 0) 1
      else 0)

/-- numpy's comparison of complex values with a real value (the
`lower <= value` / `value <= upper` column comparisons of the margin
gating operate on the complex `ExpectedValue ∓ margin` columns):
lexicographic in (real part, imaginary part). -/
noncomputable def cleb (z w : ℂ) : Bool :=
  decide (z.re < w.re ∨ (z.re = w.re ∧ z.im ≤ w.im))

/-- The anomaly report: the columns of the pandas `DataFrame` assembled by
`SpectralResidual.__detect`, indexed by the dense `AnomalyId` column.  The
expected-value and boundary columns exist exactly in margin mode, hence
the `Option`. -/
structure AnomalyFrame : Type where
  timestamp : List ℝ
  value : List ℝ
  anomalyId : List ℕ
  mag : List ℝ
  anomalyScore : List ℝ
  isAnomaly : List Bool
  expectedValue : Option (List ℂ)
  lowerBoundary : Option (List ℂ)
  upperBoundary : Option (List ℂ)

/-- The body of `SpectralResidual.__detect` after the (fallible) series
extension, operating on the extended series.  Source:
```
mags = self.spectral_residual_transform(extended_series)[:len(self.__series__)]
anomaly_scores = self.generate_spectral_score(mags)
anomaly_frame = pd.DataFrame({Timestamp: ..., Value: ..., AnomalyId: range(len(anomaly_scores)),
                              Mag: mags, AnomalyScore: anomaly_scores})
anomaly_frame[IsAnomaly] = np.where(anomaly_frame[AnomalyScore] >= self.__threshold__, True, False)
anomaly_frame.set_index(AnomalyId, inplace=True)
if self.__detect_mode == DetectMode.anomaly_and_margin:
    anomaly_frame[ExpectedValue] = self.calculate_expected_value(
        anomaly_frame[anomaly_frame[IsAnomaly]].index.tolist())
    boundary_units = boundary_helper.calculate_bounary_unit_entire(values, isAnomaly)
    anomaly_frame[AnomalyScore] = boundary_helper.calculate_anomaly_scores(...)
    margins = [boundary_helper.calculate_margin(u, self.__sensitivity) for u in boundary_units]
    anomaly_frame[LowerBoundary] = anomaly_frame[ExpectedValue].values - margins
    anomaly_frame[UpperBoundary] = anomaly_frame[ExpectedValue].values + margins
    anomaly_frame[IsAnomaly] = np.logical_and(isAnomaly, lower <= value)
    anomaly_frame[IsAnomaly] = np.logical_and(isAnomaly, value <= upper)
return anomaly_frame
```
-/
noncomputable def detectCore (series : List (ℝ × ℝ)) (threshold : ℝ)
    (mag_window score_window : ℕ) (sensitivity : ℝ)
    (detect_mode : DetectMode) (extended_series : List ℝ) : AnomalyFrame :=
  let values := series.map Prod.snd
  let mags := (spectral_residual_transform mag_window extended_series).take series.length
  let anomaly_scores := generate_spectral_score score_window mags
  let isAnomaly0 := anomaly_scores.map (fun s => decide (s ≥ threshold))
  let base : AnomalyFrame :=
    { timestamp := series.map Prod.fst
      value := values
      anomalyId := List.range anomaly_scores.length
      mag := mags
      anomalyScore := anomaly_scores
      isAnomaly := isAnomaly0
      expectedValue := none
      lowerBoundary := none
      upperBoundary := none }
  match detect_mode with
  | DetectMode.anomaly_only => base
  | DetectMode.anomaly_and_margin =>
    let anomaly_index := (isAnomaly0.enum.filter (fun p => p.2)).map Prod.fst
    let expected := calculate_expected_value values anomaly_index
    let boundary_units := calculate_bounary_unit_entire values isAnomaly0
    let newScores := calculate_anomaly_scores values expected boundary_units isAnomaly0
    let margins := boundary_units.map (fun u => calculate_margin u sensitivity)
    let lower := List.zipWith (fun e m => e - Complex.ofReal m) expected margins
    let upper := List.zipWith (fun e m => e + Complex.ofReal m) expected margins
    let isAnomaly1 := List.zipWith (fun b c => b && c) isAnomaly0
      (List.zipWith (fun lo v => cleb lo (Complex.ofReal v)) lower values)
    let isAnomaly2 := List.zipWith (fun b c => b && c) isAnomaly1
      (List.zipWith (fun v up => cleb (Complex.ofReal v) up) values upper)
    { base with
        anomalyScore := newScores
        isAnomaly := isAnomaly2
        expectedValue := some expected
        lowerBoundary := some lower
        upperBoundary := some upper }

/-- Embedding of `SpectralResidual.__detect`: extend the series (which may
raise), then assemble the frame from the extended series. -/
noncomputable def detectRun (series : List (ℝ × ℝ)) (threshold : ℝ)
    (mag_window score_window : ℕ) (sensitivity : ℝ)
    (detect_mode : DetectMode) : Except String AnomalyFrame :=
  (extend_series (series.map Prod.snd)).map
    (detectCore series threshold mag_window score_window sensitivity detect_mode)

/-- The state of a `SpectralResidual` instance: the constructor arguments
together with the `__anomaly_frame` cache. -/
structure SpectralResidualState : Type where
  series : List (ℝ × ℝ)
  threshold : ℝ
  mag_window : ℕ
  score_window : ℕ
  sensitivity : ℝ
  detect_mode : DetectMode
  anomaly_frame : Option AnomalyFrame

/-- Embedding of `SpectralResidual.__init__`: records the series and the
configuration and initialises the cache `__anomaly_frame = None`. -/
def initState (series : List (ℝ × ℝ)) (threshold : ℝ)
    (mag_window score_window : ℕ) (sensitivity : ℝ)
    (detect_mode : DetectMode) : SpectralResidualState :=
  ⟨series, threshold, mag_window, score_window, sensitivity, detect_mode, none⟩

/-- Embedding of `SpectralResidual.detect`:
```
if self.__anomaly_frame is None:
    self.__anomaly_frame = self.__detect()
return self.__anomaly_frame
```
State passing is explicit: the returned state carries the updated cache.
When `__detect` raises, the exception propagates before the assignment, so
the cache stays `None`. -/
noncomputable def detect (s : SpectralResidualState) :
    Except String (AnomalyFrame × SpectralResidualState) :=
  match s.anomaly_frame with
  | some f => .ok (f, s)
  | none =>
    match detectRun s.series s.threshold s.mag_window s.score_window
        s.sensitivity s.detect_mode with
    | .error e => .error e
    | .ok f => .ok (f, { s with anomaly_frame := some f })

/-! ## Concrete objects used by the witnesses -/

/-- A concrete three-point constant series `(t, value) = (0,1), (1,1), (2,1)`. -/
def series3 : List (ℝ × ℝ) := [(0, 1), (1, 1), (2, 1)]

/-- The extension of the values of `series3` by five predicted points. -/
def ext8 : List ℝ := [1, 1, 1, 1, 1, 1, 1, 1]

/-- An (arbitrary) frame with empty columns, used to populate a cache. -/
def emptyFrame : AnomalyFrame :=
  ⟨[], [], [], [], [], [], none, none, none⟩

/-- A detector state whose report cache is already populated. -/
def cachedState : SpectralResidualState :=
  ⟨[], 0, 1, 1, 0, DetectMode.anomaly_only, some emptyFrame⟩

/-! ## Helper lemmas for the series extender -/

/-- Summing `f` over an enumerated list, with the enumeration starting at
`k`, equals the `Finset.range` sum over positions. -/
theorem sum_map_enumFrom_eq {α β : Type} [AddCommMonoid β] (d : α)
    (f : ℕ × α → β) (l : List α) (k : ℕ) :
    ((l.enumFrom k).map f).sum
      = ∑ i ∈ Finset.range l.length, f (k + i, l.getD i d) := by
  induction l generalizing k with
  | nil => simp
  | cons a t ih =>
    rw [List.enumFrom_cons, List.map_cons, List.sum_cons, ih,
      List.length_cons, Finset.sum_range_succ']
    simp [add_comm, add_assoc, add_left_comm]

theorem sum_map_enum_eq {α β : Type} [AddCommMonoid β] (d : α)
    (f : ℕ × α → β) (l : List α) :
    (l.enum.map f).sum = ∑ i ∈ Finset.range l.length, f (i, l.getD i d) := by
  simpa using sum_map_enumFrom_eq d f l 0

/-- `predict_next` succeeds exactly on inputs with at least two values. -/
theorem predict_next_ok {α : Type} [Field α] (values : List α)
    (h : 2 ≤ values.length) :
    predict_next values
      = .ok (values.getD 1 0 +
          ((values.take (values.length - 1)).enum.map
            (fun p => (values.getD (values.length - 1) 0 - p.2)
              / ((values.length - 1 - p.1 : ℕ) : α))).sum) := by
  unfold predict_next
  rw [if_neg (by omega)]

theorem predict_next_error {α : Type} [Field α] (values : List α)
    (h : values.length ≤ 1) :
    predict_next values = .error "data should contain at least 2 numbers" := by
  unfold predict_next
  rw [if_pos h]

theorem tailSlice_length {α : Type} (values : List α) (look_ahead : ℤ) :
    (tailSlice values look_ahead).length
      = values.length - 1 - (values.length - (look_ahead.toNat + 2)) := by
  simp [tailSlice]

/-- Success/failure behaviour of `extend_series`: with `look_ahead ≥ 1` it
succeeds exactly on inputs of length at least 3, returning the input
followed by `extend_num` copies of the predicted value. -/
theorem extend_series_eq_ok {α : Type} [Field α] (values : List α)
    (extend_num : ℕ) (look_ahead : ℤ) (hla : 1 ≤ look_ahead)
    (hlen : 3 ≤ values.length) :
    ∃ p, predict_next (tailSlice values look_ahead) = .ok p ∧
      extend_series values extend_num look_ahead
        = .ok (values ++ List.replicate extend_num p) := by
  have hslice : 2 ≤ (tailSlice values look_ahead).length := by
    rw [tailSlice_length]
    have : 1 ≤ look_ahead.toNat := by omega
    omega
  obtain ⟨p, hp⟩ : ∃ p, predict_next (tailSlice values look_ahead) = .ok p :=
    ⟨_, predict_next_ok _ hslice⟩
  refine ⟨p, hp, ?_⟩
  unfold extend_series
  rw [if_neg (by omega)]
  simpa [tailSlice] using congrArg (Except.map (values ++ List.replicate extend_num ·)) hp

theorem extend_series_error_short {α : Type} [Field α] (values : List α)
    (extend_num : ℕ) (look_ahead : ℤ) (hla : 1 ≤ look_ahead)
    (hlen : values.length ≤ 2) :
    extend_series values extend_num look_ahead
      = .error "data should contain at least 2 numbers" := by
  have hslice : (tailSlice values look_ahead).length ≤ 1 := by
    rw [tailSlice_length]; omega
  unfold extend_series
  rw [if_neg (by omega)]
  have := predict_next_error (tailSlice values look_ahead) hslice
  simpa [tailSlice] using congrArg (Except.map (values ++ List.replicate extend_num ·)) this

theorem extend_series_error_la {α : Type} [Field α] (values : List α)
    (extend_num : ℕ) (look_ahead : ℤ) (hla : look_ahead < 1) :
    extend_series values extend_num look_ahead
      = .error "look_ahead must be at least 1" := by
  unfold extend_series
  rw [if_pos hla]

/-! ## Claim theorems for the series extender -/

/-- **C5.** For every list `values` of at least 2 numbers, `predict_next values`
equals `values[1] + ∑ i in 0..n-2, (values[n-1] - values[i]) / (n-1-i)`;
in particular `predict_next [1.0, 2.0, 3.0]` is exactly `4.0`. -/
theorem predict_next_slope_formula :
    (∀ values : List ℚ, 2 ≤ values.length →
      predict_next values
        = .ok (values.getD 1 0 +
            ∑ i ∈ Finset.range (values.length - 1),
              (values.getD (values.length - 1) 0 - values.getD i 0)
                / ((values.length - 1 - i : ℕ) : ℚ))) ∧
    predict_next [(1 : ℚ), 2, 3] = .ok 4 := by
  constructor
  · intro values h
    rw [predict_next_ok values h,
      @sum_map_enum_eq ℚ ℚ _ 0
        (fun p => (values.getD (values.length - 1) 0 - p.2)
          / ((values.length - 1 - p.1 : ℕ) : ℚ))
        (values.take (values.length - 1))]
    have hlen : (values.take (values.length - 1)).length = values.length - 1 := by
      simp
    rw [hlen]
    have hsum : ∑ i ∈ Finset.range (values.length - 1),
        (values.getD (values.length - 1) 0
            - (values.take (values.length - 1)).getD i 0)
          / ((values.length - 1 - i : ℕ) : ℚ)
        = ∑ i ∈ Finset.range (values.length - 1),
          (values.getD (values.length - 1) 0 - values.getD i 0)
            / ((values.length - 1 - i : ℕ) : ℚ) := by
      refine Finset.sum_congr rfl (fun i hi => ?_)
      rw [Finset.mem_range] at hi
      simp only [List.getD_eq_getElem?_getD, List.getElem?_take]
      rw [if_pos (show i < values.length - 1 by omega)]
    rw [hsum]
  · unfold predict_next
    norm_num [List.enum, List.enumFrom]

/-- Witness for C5 at the concrete input `[5, 7]`. -/
theorem predict_next_slope_formula_witness :
    2 ≤ ([(5 : ℚ), 7] : List ℚ).length ∧
    predict_next [(5 : ℚ), 7]
      = .ok (([(5 : ℚ), 7].getD 1 0 +
          ∑ i ∈ Finset.range (([(5 : ℚ), 7] : List ℚ).length - 1),
            ([(5 : ℚ), 7].getD (([(5 : ℚ), 7] : List ℚ).length - 1) 0
              - [(5 : ℚ), 7].getD i 0)
              / ((([(5 : ℚ), 7] : List ℚ).length - 1 - i : ℕ) : ℚ))) :=
  ⟨by decide, predict_next_slope_formula.1 [(5 : ℚ), 7] (by decide)⟩

/-- **C6.** Whenever `extend_series values extend_num look_ahead` succeeds, the
result has length `len(values) + extend_num`, its first `len(values)`
elements are the original input unchanged, and its last `extend_num`
elements are `extend_num` copies of the single value predicted from the
slice `values[-look_ahead - 2:-1]` (the last `look_ahead + 2` values with
the final element excluded). -/
theorem extend_series_shape (values : List ℚ) (extend_num : ℕ)
    (look_ahead : ℤ) (res : List ℚ)
    (h : extend_series values extend_num look_ahead = .ok res) :
    res.length = values.length + extend_num ∧
    res.take values.length = values ∧
    ∃ p, predict_next (tailSlice values look_ahead) = .ok p ∧
      res.drop values.length = List.replicate extend_num p := by
  unfold extend_series at h
  by_cases hla : look_ahead < 1
  · rw [if_pos hla] at h; exact absurd h (by simp)
  · rw [if_neg hla] at h
    rcases hp : predict_next (tailSlice values look_ahead) with e | p
    · rw [show (values.take (values.length - 1)).drop
          (values.length - (look_ahead.toNat + 2)) = tailSlice values look_ahead
          from rfl, hp] at h
      exact absurd h (by simp [Bind.bind, Except.bind])
    · rw [show (values.take (values.length - 1)).drop
          (values.length - (look_ahead.toNat + 2)) = tailSlice values look_ahead
          from rfl, hp] at h
      simp only [Bind.bind, Except.bind, pure, Except.pure, Except.ok.injEq] at h
      subst h
      refine ⟨by simp, by simp, p, rfl, by simp⟩

/-- Witness for C6 at `values = [1, 2, 3]`, `extend_num = 2`, `look_ahead = 1`. -/
theorem extend_series_shape_witness :
    extend_series [(1 : ℚ), 2, 3] 2 1 = .ok [1, 2, 3, 3, 3] ∧
    (([(1 : ℚ), 2, 3, 3, 3] : List ℚ).length = ([(1 : ℚ), 2, 3] : List ℚ).length + 2 ∧
     ([(1 : ℚ), 2, 3, 3, 3] : List ℚ).take ([(1 : ℚ), 2, 3] : List ℚ).length = [1, 2, 3] ∧
     ∃ p, predict_next (tailSlice [(1 : ℚ), 2, 3] 1) = .ok p ∧
       ([(1 : ℚ), 2, 3, 3, 3] : List ℚ).drop ([(1 : ℚ), 2, 3] : List ℚ).length
         = List.replicate 2 p) := by
  have h : extend_series [(1 : ℚ), 2, 3] 2 1 = .ok [1, 2, 3, 3, 3] := by
    unfold extend_series predict_next
    norm_num [List.enum, List.enumFrom, Bind.bind, Except.bind,
      List.replicate, pure, Except.pure]
  exact ⟨h, extend_series_shape [(1 : ℚ), 2, 3] 2 1 [1, 2, 3, 3, 3] h⟩

/-- **C9.** `predict_next` fails with its input-validation error exactly when
fewer than 2 values are supplied, and `extend_series` fails with its
input-validation error whenever `look_ahead < 1`. -/
theorem input_validation_errors :
    (∀ values : List ℚ,
      predict_next values = .error "data should contain at least 2 numbers"
        ↔ values.length < 2) ∧
    (∀ (values : List ℚ) (extend_num : ℕ) (look_ahead : ℤ), look_ahead < 1 →
      extend_series values extend_num look_ahead
        = .error "look_ahead must be at least 1") := by
  constructor
  · intro values
    constructor
    · intro h
      by_contra hlen
      rw [predict_next_ok values (by omega)] at h
      exact absurd h (by simp)
    · intro h
      exact predict_next_error values (by omega)
  · intro values extend_num look_ahead h
    exact extend_series_error_la values extend_num look_ahead h

/-- Witness for C9: the empty list fails `predict_next`, and
`look_ahead = 0` fails `extend_series`. -/
theorem input_validation_errors_witness :
    (predict_next ([] : List ℚ) = .error "data should contain at least 2 numbers"
      ↔ ([] : List ℚ).length < 2) ∧
    ((0 : ℤ) < 1 ∧ extend_series [(1 : ℚ)] 5 0 = .error "look_ahead must be at least 1") :=
  ⟨input_validation_errors.1 [], by decide,
    input_validation_errors.2 [(1 : ℚ)] 5 0 (by decide)⟩

/-- **C10.** With any `look_ahead ≥ 1`, `extend_series` raises an
input-validation error on every input of exactly 2 values (the prediction
slice excludes the final element, leaving a single value for
`predict_next`), and it succeeds only on inputs of at least 3 values. -/
theorem extend_series_needs_three :
    (∀ (values : List ℚ) (extend_num : ℕ) (look_ahead : ℤ),
      1 ≤ look_ahead → values.length = 2 →
      extend_series values extend_num look_ahead
        = .error "data should contain at least 2 numbers") ∧
    (∀ (values : List ℚ) (extend_num : ℕ) (look_ahead : ℤ) (res : List ℚ),
      extend_series values extend_num look_ahead = .ok res →
      3 ≤ values.length) := by
  constructor
  · intro values extend_num look_ahead hla hlen
    exact extend_series_error_short values extend_num look_ahead hla (by omega)
  · intro values extend_num look_ahead res h
    by_contra hlen
    by_cases hla : look_ahead < 1
    · rw [extend_series_error_la values extend_num look_ahead hla] at h
      exact absurd h (by simp)
    · rw [extend_series_error_short values extend_num look_ahead (by omega)
        (by omega)] at h
      exact absurd h (by simp)

/-- Witness for C10 at `values = [1, 2]`, `look_ahead = 1`. -/
theorem extend_series_needs_three_witness :
    ((1 : ℤ) ≤ 1 ∧ ([(1 : ℚ), 2] : List ℚ).length = 2 ∧
      extend_series [(1 : ℚ), 2] 5 1
        = .error "data should contain at least 2 numbers") :=
  ⟨by decide, by decide,
    extend_series_needs_three.1 [(1 : ℚ), 2] 5 1 (by decide) (by decide)⟩

/-! ## Basic lemmas on the Fourier embedding -/

theorem fft_length (x : List ℂ) : (fft x).length = x.length := by
  simp [fft]

theorem ifft_length (x : List ℂ) : (ifft x).length = x.length := by
  simp [ifft]

theorem fft_getD (x : List ℂ) (k : ℕ) (hk : k < x.length) :
    (fft x).getD k 0 = fftCoef x k := by
  rw [fft, List.getD_eq_getElem?_getD, List.getElem?_map,
    List.getElem?_range hk]
  rfl

theorem ifft_getD (x : List ℂ) (j : ℕ) (hj : j < x.length) :
    (ifft x).getD j 0 = ifftCoef x j := by
  rw [ifft, List.getD_eq_getElem?_getD, List.getElem?_map,
    List.getElem?_range hj]
  rfl

theorem deanomaly_entire_length (values : List ℝ) (anomaly_index : List ℕ) :
    (deanomaly_entire values anomaly_index).length = values.length := by
  simp [deanomaly_entire]

theorem filterSpectrum_length (length : ℕ) (coef : List ℂ) :
    (filterSpectrum length coef).length = coef.length := by
  simp [filterSpectrum]

theorem filterSpectrum_getD (L : ℕ) (coef : List ℂ) (i : ℕ)
    (hi : i < coef.length) :
    (filterSpectrum L coef).getD i 0
      = if (L * 3 : ℚ) / 8 ≥ (i : ℚ) ∨ (i : ℚ) ≥ (L * 5 : ℚ) / 8
        then coef.getD i 0 else 0 := by
  simp [filterSpectrum, List.getD_eq_getElem?_getD, List.getElem?_enum,
    List.getElem?_eq_getElem hi]

/-- **C8.** In the expected-value reconstruction over a cleaned series `vals`
of length `L`, the filtered Fourier coefficient at every index `i` with
`3L/8 < i < 5L/8` is zero, and at every index with `i ≤ 3L/8` or
`i ≥ 5L/8` it equals the unfiltered coefficient; the thresholds are the
exact (true-division) values `3L/8` and `5L/8`. -/
theorem filter_band_exact (vals : List ℝ) (i : ℕ) (hi : i < vals.length) :
    ((vals.length * 3 : ℚ) / 8 < (i : ℚ) ∧ (i : ℚ) < (vals.length * 5 : ℚ) / 8 →
      (filterSpectrum vals.length
        (fft (vals.map (fun v => Complex.ofReal v)))).getD i 0 = 0) ∧
    ((i : ℚ) ≤ (vals.length * 3 : ℚ) / 8 ∨ (vals.length * 5 : ℚ) / 8 ≤ (i : ℚ) →
      (filterSpectrum vals.length
        (fft (vals.map (fun v => Complex.ofReal v)))).getD i 0
        = fftCoef (vals.map (fun v => Complex.ofReal v)) i) := by
  have hxs : i < (vals.map (fun v => Complex.ofReal v)).length := by
    rw [List.length_map]; exact hi
  have hlen : i < (fft (vals.map (fun v => Complex.ofReal v))).length := by
    rw [fft_length]; exact hxs
  rw [filterSpectrum_getD _ _ _ hlen]
  constructor
  · intro h
    rw [if_neg]
    push_neg
    exact ⟨by linarith [h.1], by linarith [h.2]⟩
  · intro h
    rw [if_pos, fft_getD _ _ hxs]
    rcases h with h | h
    · exact Or.inl (by linarith)
    · exact Or.inr (by linarith)

/-- Witness for C8 at the cleaned series `replicate 8 0` and index `i = 4`
(the band is `3 < i < 5`). -/
theorem filter_band_exact_witness :
    (4 : ℕ) < (List.replicate 8 (0 : ℝ)).length ∧
    ((((List.replicate 8 (0 : ℝ)).length * 3 : ℚ) / 8 < (4 : ℚ) ∧
        (4 : ℚ) < ((List.replicate 8 (0 : ℝ)).length * 5 : ℚ) / 8 →
      (filterSpectrum (List.replicate 8 (0 : ℝ)).length
        (fft ((List.replicate 8 (0 : ℝ)).map (fun v => Complex.ofReal v)))).getD 4 0 = 0) ∧
     ((4 : ℚ) ≤ ((List.replicate 8 (0 : ℝ)).length * 3 : ℚ) / 8 ∨
        ((List.replicate 8 (0 : ℝ)).length * 5 : ℚ) / 8 ≤ (4 : ℚ) →
      (filterSpectrum (List.replicate 8 (0 : ℝ)).length
        (fft ((List.replicate 8 (0 : ℝ)).map (fun v => Complex.ofReal v)))).getD 4 0
        = fftCoef ((List.replicate 8 (0 : ℝ)).map (fun v => Complex.ofReal v)) 4)) :=
  ⟨by simp, filter_band_exact (List.replicate 8 (0 : ℝ)) 4 (by simp)⟩

/-! ## Conjugate symmetry of the filtered spectrum and realness of the
inverse transform (for C7) -/

theorem exp_int_twoPiI (n : ℤ) : Complex.exp ((n : ℂ) * twoPiI) = 1 := by
  rw [twoPiI]
  exact Complex.exp_int_mul_two_pi_mul_I n

theorem flipIdx_lt (L k : ℕ) (hL : L ≠ 0) : flipIdx L k < L :=
  Nat.mod_lt _ (by omega)

theorem flipIdx_flipIdx (L k : ℕ) (hk : k < L) :
    flipIdx L (flipIdx L k) = k := by
  unfold flipIdx
  rcases Nat.eq_zero_or_pos k with h0 | h0
  · subst h0
    simp [Nat.mod_self]
  · rw [Nat.mod_eq_of_lt (show L - k < L by omega)]
    rw [Nat.mod_eq_of_lt (show L - (L - k) < L by omega)]
    omega

theorem exp_flip_neg (L j k : ℕ) (hL : L ≠ 0) (hk : k ≤ L) :
    Complex.exp (-twoPiI * j * ((L - k : ℕ) : ℂ) / L)
      = Complex.exp (twoPiI * j * k / L) := by
  have hL' : (L : ℂ) ≠ 0 := Nat.cast_ne_zero.mpr hL
  have hc : ((L - k : ℕ) : ℂ) = (L : ℂ) - (k : ℂ) := by
    push_cast [hk]
    ring
  have harg : -twoPiI * j * ((L : ℂ) - (k : ℂ)) / L
      = ((-(j : ℤ) : ℤ) : ℂ) * twoPiI + twoPiI * j * k / L := by
    push_cast
    field_simp
    ring
  rw [hc, harg, Complex.exp_add, exp_int_twoPiI, one_mul]

theorem exp_flip_pos (L j k : ℕ) (hL : L ≠ 0) (hk : k ≤ L) :
    Complex.exp (twoPiI * j * ((L - k : ℕ) : ℂ) / L)
      = Complex.exp (-twoPiI * j * k / L) := by
  have hL' : (L : ℂ) ≠ 0 := Nat.cast_ne_zero.mpr hL
  have hc : ((L - k : ℕ) : ℂ) = (L : ℂ) - (k : ℂ) := by
    push_cast [hk]
    ring
  have harg : twoPiI * j * ((L : ℂ) - (k : ℂ)) / L
      = ((j : ℤ) : ℂ) * twoPiI + -twoPiI * j * k / L := by
    push_cast
    field_simp
    ring
  rw [hc, harg, Complex.exp_add, exp_int_twoPiI, one_mul]

theorem conj_exp_neg (L j k : ℕ) :
    (starRingEnd ℂ) (Complex.exp (-twoPiI * j * k / L))
      = Complex.exp (twoPiI * j * k / L) := by
  rw [← Complex.exp_conj]
  congr 1
  simp [twoPiI, map_div₀, map_ofNat, Complex.conj_I]

theorem conj_exp_pos (L j k : ℕ) :
    (starRingEnd ℂ) (Complex.exp (twoPiI * j * k / L))
      = Complex.exp (-twoPiI * j * k / L) := by
  rw [← Complex.exp_conj]
  congr 1
  simp [twoPiI, map_div₀, map_ofNat, Complex.conj_I]

theorem exp_neg_flipIdx (L j k : ℕ) (hL : L ≠ 0) (hk : k < L) :
    Complex.exp (-twoPiI * j * ((flipIdx L k : ℕ) : ℂ) / L)
      = Complex.exp (twoPiI * j * k / L) := by
  unfold flipIdx
  rcases Nat.eq_zero_or_pos k with h0 | h0
  · subst h0
    simp [Nat.mod_self]
  · rw [Nat.mod_eq_of_lt (show L - k < L by omega)]
    exact exp_flip_neg L j k hL (le_of_lt hk)

theorem exp_pos_flipIdx (L j k : ℕ) (hL : L ≠ 0) (hk : k < L) :
    Complex.exp (twoPiI * j * ((flipIdx L k : ℕ) : ℂ) / L)
      = Complex.exp (-twoPiI * j * k / L) := by
  unfold flipIdx
  rcases Nat.eq_zero_or_pos k with h0 | h0
  · subst h0
    simp [Nat.mod_self]
  · rw [Nat.mod_eq_of_lt (show L - k < L by omega)]
    exact exp_flip_pos L j k hL (le_of_lt hk)

/-- Conjugating the DFT of a list of real entries mirrors the frequency
index. -/
theorem conj_fftCoef (xs : List ℂ)
    (hreal : ∀ m, (starRingEnd ℂ) (xs.getD m 0) = xs.getD m 0)
    (k : ℕ) (hk : k < xs.length) :
    (starRingEnd ℂ) (fftCoef xs k) = fftCoef xs (flipIdx xs.length k) := by
  have hL : xs.length ≠ 0 := by omega
  rw [fftCoef, map_sum, fftCoef]
  refine Finset.sum_congr rfl (fun j hj => ?_)
  rw [map_mul, hreal j]
  congr 1
  rw [conj_exp_neg]
  exact (exp_neg_flipIdx xs.length j k hL hk).symm

/-- The band-keeping predicate is symmetric under the index mirror. -/
theorem keep_flipIdx_iff (L k : ℕ) (hk : k < L) :
    ((L * 3 : ℚ) / 8 ≥ ((flipIdx L k : ℕ) : ℚ)
        ∨ ((flipIdx L k : ℕ) : ℚ) ≥ (L * 5 : ℚ) / 8)
      ↔ ((L * 3 : ℚ) / 8 ≥ (k : ℚ) ∨ (k : ℚ) ≥ (L * 5 : ℚ) / 8) := by
  unfold flipIdx
  rcases Nat.eq_zero_or_pos k with h0 | h0
  · subst h0
    simp [Nat.mod_self]
  · rw [Nat.mod_eq_of_lt (show L - k < L by omega)]
    have hc : (((L - k : ℕ)) : ℚ) = (L : ℚ) - (k : ℚ) := by
      push_cast [le_of_lt hk]
      ring
    rw [hc]
    constructor
    · rintro (h | h)
      · exact Or.inr (by linarith)
      · exact Or.inl (by linarith)
    · rintro (h | h)
      · exact Or.inr (by linarith)
      · exact Or.inl (by linarith)

/-- The filtered spectrum of a real-valued series is conjugate-symmetric. -/
theorem conj_filtered (xs : List ℂ)
    (hreal : ∀ m, (starRingEnd ℂ) (xs.getD m 0) = xs.getD m 0)
    (k : ℕ) (hk : k < xs.length) :
    (starRingEnd ℂ) ((filterSpectrum xs.length (fft xs)).getD k 0)
      = (filterSpectrum xs.length (fft xs)).getD (flipIdx xs.length k) 0 := by
  have hL : xs.length ≠ 0 := by omega
  have hk' : k < (fft xs).length := by rw [fft_length]; exact hk
  have hflip : flipIdx xs.length k < (fft xs).length := by
    rw [fft_length]; exact flipIdx_lt _ _ hL
  rw [filterSpectrum_getD _ _ _ hk', filterSpectrum_getD _ _ _ hflip,
    fft_getD _ _ hk, fft_getD _ _ (by rw [fft_length] at hflip; exact hflip)]
  by_cases hcond : (xs.length * 3 : ℚ) / 8 ≥ (k : ℚ) ∨ (k : ℚ) ≥ (xs.length * 5 : ℚ) / 8
  · rw [if_pos hcond, if_pos ((keep_flipIdx_iff xs.length k hk).mpr hcond)]
    exact conj_fftCoef xs hreal k hk
  · rw [if_neg hcond, if_neg (fun hc => hcond ((keep_flipIdx_iff xs.length k hk).mp hc))]
    exact map_zero _

/-- The inverse transform of the band-filtered spectrum of a real-valued
series is fixed by conjugation, i.e. real-valued. -/
theorem conj_ifftCoef_filtered (xs : List ℂ)
    (hreal : ∀ m, (starRingEnd ℂ) (xs.getD m 0) = xs.getD m 0) (j : ℕ) :
    (starRingEnd ℂ) (ifftCoef (filterSpectrum xs.length (fft xs)) j)
      = ifftCoef (filterSpectrum xs.length (fft xs)) j := by
  by_cases hL : xs.length = 0
  · have hF : (filterSpectrum xs.length (fft xs)).length = 0 := by
      rw [filterSpectrum_length, fft_length, hL]
    unfold ifftCoef
    rw [hF]
    simp
  · have hFlen : (filterSpectrum xs.length (fft xs)).length = xs.length := by
      rw [filterSpectrum_length, fft_length]
    unfold ifftCoef
    rw [map_div₀, map_sum, map_natCast]
    congr 1
    simp only [hFlen]
    refine Finset.sum_nbij' (flipIdx xs.length) (flipIdx xs.length)
      (fun a ha => ?_) (fun a ha => ?_) (fun a ha => ?_) (fun a ha => ?_)
      (fun a ha => ?_)
    · rw [Finset.mem_range] at ha ⊢
      exact flipIdx_lt _ _ hL
    · rw [Finset.mem_range] at ha ⊢
      exact flipIdx_lt _ _ hL
    · rw [Finset.mem_range] at ha
      exact flipIdx_flipIdx _ _ ha
    · rw [Finset.mem_range] at ha
      exact flipIdx_flipIdx _ _ ha
    · rw [Finset.mem_range] at ha
      rw [map_mul, conj_filtered xs hreal a ha]
      congr 1
      rw [conj_exp_pos]
      exact (exp_pos_flipIdx xs.length j a hL ha).symm

/-- Real input lists (images of `Complex.ofReal`) have conjugation-fixed
entries, including the out-of-range default. -/
theorem map_ofReal_getD_conj (vals : List ℝ) (m : ℕ) :
    (starRingEnd ℂ) ((vals.map (fun v => Complex.ofReal v)).getD m 0)
      = (vals.map (fun v => Complex.ofReal v)).getD m 0 := by
  by_cases hm : m < vals.length
  · rw [List.getD_eq_getElem?_getD, List.getElem?_map,
      List.getElem?_eq_getElem hm]
    simp [Complex.conj_ofReal]
  · rw [List.getD_eq_getElem?_getD, List.getElem?_eq_none
      (by rw [List.length_map]; omega)]
    simp

/-- **C7.** In margin mode, `calculate_expected_value` returns a series of
the same length as the input, index-for-index aligned with it, which is
exactly the inverse Fourier transform of the band-filtered spectrum of the
cleaned series; each entry has zero imaginary part and hence equals the
real part of that inverse transform. -/
theorem expected_value_real (values : List ℝ) (anomaly_index : List ℕ)
    (i : ℕ) (hi : i < values.length) :
    calculate_expected_value values anomaly_index
      = ifft (filterSpectrum (deanomaly_entire values anomaly_index).length
          (fft ((deanomaly_entire values anomaly_index).map
            (fun v => Complex.ofReal v)))) ∧
    (calculate_expected_value values anomaly_index).length = values.length ∧
    ((calculate_expected_value values anomaly_index).getD i 0).im = 0 ∧
    (calculate_expected_value values anomaly_index).getD i 0
      = Complex.ofReal
          (((calculate_expected_value values anomaly_index).getD i 0).re) := by
  set vals := deanomaly_entire values anomaly_index with hvals
  set xs := vals.map (fun v => Complex.ofReal v) with hxs
  have hvlen : vals.length = values.length := deanomaly_entire_length _ _
  have hxlen : xs.length = vals.length := by rw [hxs, List.length_map]
  have heq : calculate_expected_value values anomaly_index
      = ifft (filterSpectrum vals.length (fft xs)) := rfl
  have hlen : (calculate_expected_value values anomaly_index).length
      = values.length := by
    rw [heq, ifft_length, filterSpectrum_length, fft_length, hxlen, hvlen]
  have hreal : ∀ m, (starRingEnd ℂ) (xs.getD m 0) = xs.getD m 0 := by
    intro m
    rw [hxs]
    exact map_ofReal_getD_conj vals m
  have hgetD : (calculate_expected_value values anomaly_index).getD i 0
      = ifftCoef (filterSpectrum vals.length (fft xs)) i := by
    rw [heq]
    refine ifft_getD _ _ ?_
    rw [filterSpectrum_length, fft_length, hxlen, hvlen]
    exact hi
  have hconj : (starRingEnd ℂ)
      ((calculate_expected_value values anomaly_index).getD i 0)
      = (calculate_expected_value values anomaly_index).getD i 0 := by
    rw [hgetD, ← hxlen]
    exact conj_ifftCoef_filtered xs hreal i
  refine ⟨heq, hlen, Complex.conj_eq_iff_im.mp hconj, ?_⟩
  exact (Complex.conj_eq_iff_re.mp hconj).symm

/-- Witness for C7 at `values = [1, 2, 3]`, `anomaly_index = []`, `i = 0`. -/
theorem expected_value_real_witness :
    (0 : ℕ) < ([(1 : ℝ), 2, 3] : List ℝ).length ∧
    (calculate_expected_value [(1 : ℝ), 2, 3] []
        = ifft (filterSpectrum (deanomaly_entire [(1 : ℝ), 2, 3] []).length
            (fft ((deanomaly_entire [(1 : ℝ), 2, 3] []).map
              (fun v => Complex.ofReal v)))) ∧
      (calculate_expected_value [(1 : ℝ), 2, 3] []).length
        = ([(1 : ℝ), 2, 3] : List ℝ).length ∧
      ((calculate_expected_value [(1 : ℝ), 2, 3] []).getD 0 0).im = 0 ∧
      (calculate_expected_value [(1 : ℝ), 2, 3] []).getD 0 0
        = Complex.ofReal
            (((calculate_expected_value [(1 : ℝ), 2, 3] []).getD 0 0).re)) :=
  ⟨by simp, expected_value_real [(1 : ℝ), 2, 3] [] 0 (by simp)⟩

/-! ## Support lemmas for the detect pipeline -/

theorem getD_zipWith {α β γ : Type} (f : α → β → γ) (l : List α) (m : List β)
    (i : ℕ) (d : γ) (d₁ : α) (d₂ : β) (h₁ : i < l.length) (h₂ : i < m.length) :
    (List.zipWith f l m).getD i d = f (l.getD i d₁) (m.getD i d₂) := by
  rw [List.getD_eq_getElem?_getD, List.getElem?_zipWith,
    List.getElem?_eq_getElem h₁, List.getElem?_eq_getElem h₂]
  simp [List.getD_eq_getElem?_getD, List.getElem?_eq_getElem h₁,
    List.getElem?_eq_getElem h₂]

theorem average_filter_length (values : List ℝ) (n : ℕ) :
    (average_filter values n).length = values.length := by
  simp [average_filter]

theorem spectral_residual_transform_length (mag_window : ℕ) (values : List ℝ) :
    (spectral_residual_transform mag_window values).length = values.length := by
  simp [spectral_residual_transform, ifft_length, fft_length,
    average_filter_length]

theorem generate_spectral_score_length (score_window : ℕ) (mags : List ℝ) :
    (generate_spectral_score score_window mags).length = mags.length := by
  simp [generate_spectral_score, average_filter_length]

theorem calculate_expected_value_length (values : List ℝ)
    (anomaly_index : List ℕ) :
    (calculate_expected_value values anomaly_index).length = values.length := by
  simp [calculate_expected_value, ifft_length, filterSpectrum_length,
    fft_length, deanomaly_entire_length]

theorem calculate_bounary_unit_entire_length (values : List ℝ)
    (is_anomaly : List Bool) :
    (calculate_bounary_unit_entire values is_anomaly).length = values.length := by
  simp [calculate_bounary_unit_entire]

theorem calculate_anomaly_scores_length (values : List ℝ)
    (expected_values : List ℂ) (units : List ℝ) (is_anomaly : List Bool) :
    (calculate_anomaly_scores values expected_values units is_anomaly).length
      = min values.length (min expected_values.length
          (min units.length is_anomaly.length)) := by
  simp [calculate_anomaly_scores]

theorem generate_spectral_score_bounds (score_window : ℕ) (mags : List ℝ) :
    (generate_spectral_score score_window mags).Forall
      (fun s => 0 ≤ s ∧ s ≤ 1) := by
  rw [List.forall_iff_forall_mem]
  intro s hs
  simp only [generate_spectral_score, List.mem_map] at hs
  obtain ⟨r, hr, rfl⟩ := hs
  exact ⟨le_min (le_max_right _ _) zero_le_one, min_le_right _ _⟩

theorem calculate_anomaly_scores_bounds (values : List ℝ)
    (expected_values : List ℂ) (units : List ℝ) (is_anomaly : List Bool) :
    (calculate_anomaly_scores values expected_values units is_anomaly).Forall
      (fun s => 0 ≤ s ∧ s ≤ 1) := by
  rw [List.forall_iff_forall_mem]
  intro s hs
  simp only [calculate_anomaly_scores, List.mem_map] at hs
  obtain ⟨p, hp, rfl⟩ := hs
  by_cases hb : p.2.2.2
  · rw [if_pos hb]
    exact ⟨le_min (le_max_right _ _) zero_le_one, min_le_right _ _⟩
  · rw [if_neg hb]
    exact ⟨le_refl 0, zero_le_one⟩

/-- Splitting a successful `extend_series` run into its parts. -/
theorem extend_series_ok_elim {α : Type} [Field α] (values : List α)
    (extend_num : ℕ) (look_ahead : ℤ) (res : List α)
    (h : extend_series values extend_num look_ahead = .ok res) :
    ∃ p, predict_next (tailSlice values look_ahead) = .ok p ∧
      res = values ++ List.replicate extend_num p := by
  unfold extend_series at h
  by_cases hla : look_ahead < 1
  · rw [if_pos hla] at h; exact absurd h (by simp)
  · rw [if_neg hla] at h
    rcases hp : predict_next (tailSlice values look_ahead) with e | p
    · rw [show (values.take (values.length - 1)).drop
          (values.length - (look_ahead.toNat + 2)) = tailSlice values look_ahead
          from rfl, hp] at h
      exact absurd h (by simp [Bind.bind, Except.bind])
    · rw [show (values.take (values.length - 1)).drop
          (values.length - (look_ahead.toNat + 2)) = tailSlice values look_ahead
          from rfl, hp] at h
      simp only [Bind.bind, Except.bind, pure, Except.pure, Except.ok.injEq] at h
      exact ⟨p, rfl, h.symm⟩

/-- A successful `detectRun` is `detectCore` on a successful extension. -/
theorem detectRun_ok_elim (series : List (ℝ × ℝ)) (threshold : ℝ)
    (mag_window score_window : ℕ) (sensitivity : ℝ) (detect_mode : DetectMode)
    (F : AnomalyFrame)
    (h : detectRun series threshold mag_window score_window sensitivity
      detect_mode = .ok F) :
    ∃ ext, extend_series (series.map Prod.snd) 5 5 = .ok ext ∧
      ext.length = series.length + 5 ∧
      F = detectCore series threshold mag_window score_window sensitivity
        detect_mode ext := by
  unfold detectRun at h
  rcases hx : extend_series (series.map Prod.snd) 5 5 with e | ext
  · rw [hx] at h
    exact absurd h (by simp [Except.map])
  · rw [hx] at h
    simp only [Except.map, Except.ok.injEq] at h
    obtain ⟨p, -, hres⟩ := extend_series_ok_elim _ _ _ _ hx
    refine ⟨ext, rfl, ?_, h.symm⟩
    rw [hres]
    simp

theorem getD_zipWith_and_imp (l m : List Bool) (i : ℕ)
    (h : (List.zipWith (fun b c => b && c) l m).getD i false = true) :
    l.getD i false = true := by
  by_cases hi : i < min l.length m.length
  · rw [getD_zipWith _ _ _ i false false false (by omega) (by omega)] at h
    exact (Bool.and_eq_true_iff.mp h).1
  · have hlen2 : (List.zipWith (fun b c => b && c) l m).length ≤ i := by
      rw [List.length_zipWith]; omega
    rw [List.getD_eq_default _ _ hlen2] at h
    exact absurd h (by simp)

theorem series3_values : series3.map Prod.snd = [1, 1, 1] := rfl

theorem extend_series3 : extend_series (series3.map Prod.snd) 5 5 = .ok ext8 := by
  obtain ⟨p, hp, hok⟩ := extend_series_eq_ok (series3.map Prod.snd) 5 5
    (by norm_num) (by rw [series3_values]; norm_num)
  have h1 : tailSlice (series3.map Prod.snd) 5 = [1, 1] := by
    rw [series3_values]; rfl
  rw [h1] at hp
  have hp2 : predict_next ([1, 1] : List ℝ) = .ok 1 := by
    unfold predict_next
    norm_num [List.enum, List.enumFrom]
  rw [hp2] at hp
  injection hp with hp
  rw [hok, ← hp]
  rfl

/-- On the concrete `series3`, `detectRun` succeeds with the frame built
from the extension `ext8`, in either mode. -/
theorem detectRun_series3 (mode : DetectMode) :
    detectRun series3 1 3 3 1 mode = .ok (detectCore series3 1 3 3 1 mode ext8) := by
  unfold detectRun
  rw [extend_series3]
  rfl

/-! ## Claim theorems for the detect pipeline -/

/-- **C1.** For every produced report, in both detect modes, the anomaly
score of every record lies in `[0, 1]`: `generate_spectral_score` clamps
its scores, and in `anomaly_and_margin` mode the rescaled scores that
replace them satisfy the same bound. -/
theorem report_scores_in_unit_interval (series : List (ℝ × ℝ))
    (threshold : ℝ) (mag_window score_window : ℕ) (sensitivity : ℝ)
    (detect_mode : DetectMode) (F : AnomalyFrame)
    (h : detectRun series threshold mag_window score_window sensitivity
      detect_mode = .ok F) :
    F.anomalyScore.Forall (fun s => 0 ≤ s ∧ s ≤ 1) := by
  obtain ⟨ext, -, -, rfl⟩ := detectRun_ok_elim _ _ _ _ _ _ _ h
  cases detect_mode with
  | anomaly_only =>
    simp only [detectCore]
    exact generate_spectral_score_bounds _ _
  | anomaly_and_margin =>
    simp only [detectCore]
    exact calculate_anomaly_scores_bounds _ _ _ _

/-- Witness for C1 on the concrete run over `series3`. -/
theorem report_scores_in_unit_interval_witness :
    (detectCore series3 1 3 3 1 DetectMode.anomaly_only ext8).anomalyScore.Forall
      (fun s => 0 ≤ s ∧ s ≤ 1) :=
  report_scores_in_unit_interval series3 1 3 3 1 DetectMode.anomaly_only _
    (detectRun_series3 DetectMode.anomaly_only)

/-- **C2.** Every report produced by `detect` has exactly `N` records for an
input series of length `N`, in input order: the id column is exactly
`range N`, the timestamp/value columns are the input columns (the
extended tail never appears), and every column has length `N`. -/
theorem report_shape (series : List (ℝ × ℝ)) (threshold : ℝ)
    (mag_window score_window : ℕ) (sensitivity : ℝ)
    (detect_mode : DetectMode) (F : AnomalyFrame)
    (h : detectRun series threshold mag_window score_window sensitivity
      detect_mode = .ok F) :
    F.anomalyId = List.range series.length ∧
    F.timestamp = series.map Prod.fst ∧
    F.value = series.map Prod.snd ∧
    F.mag.length = series.length ∧
    F.anomalyScore.length = series.length ∧
    F.isAnomaly.length = series.length := by
  obtain ⟨ext, -, hlen, rfl⟩ := detectRun_ok_elim _ _ _ _ _ _ _ h
  have hm : ((spectral_residual_transform mag_window ext).take
      series.length).length = series.length := by
    rw [List.length_take, spectral_residual_transform_length, hlen]
    omega
  have hs : (generate_spectral_score score_window
      ((spectral_residual_transform mag_window ext).take
        series.length)).length = series.length := by
    rw [generate_spectral_score_length, hm]
  cases detect_mode with
  | anomaly_only =>
    simp only [detectCore]
    exact ⟨by rw [hs], by trivial, by trivial, hm, hs, by rw [List.length_map, hs]⟩
  | anomaly_and_margin =>
    simp only [detectCore]
    refine ⟨by rw [hs], by trivial, by trivial, hm, ?_, ?_⟩
    · rw [calculate_anomaly_scores_length, calculate_expected_value_length,
        calculate_bounary_unit_entire_length, List.length_map,
        List.length_map, hs]
      omega
    · simp only [List.length_zipWith, List.length_map,
        calculate_expected_value_length, calculate_bounary_unit_entire_length,
        hs]
      omega

/-- Witness for C2 on the concrete run over `series3`. -/
theorem report_shape_witness :
    (detectCore series3 1 3 3 1 DetectMode.anomaly_only ext8).anomalyId
        = List.range series3.length ∧
    (detectCore series3 1 3 3 1 DetectMode.anomaly_only ext8).timestamp
        = series3.map Prod.fst ∧
    (detectCore series3 1 3 3 1 DetectMode.anomaly_only ext8).value
        = series3.map Prod.snd ∧
    (detectCore series3 1 3 3 1 DetectMode.anomaly_only ext8).mag.length
        = series3.length ∧
    (detectCore series3 1 3 3 1 DetectMode.anomaly_only ext8).anomalyScore.length
        = series3.length ∧
    (detectCore series3 1 3 3 1 DetectMode.anomaly_only ext8).isAnomaly.length
        = series3.length :=
  report_shape series3 1 3 3 1 DetectMode.anomaly_only _
    (detectRun_series3 DetectMode.anomaly_only)

/-- **C4.** In `anomaly_and_margin` mode, the final `isAnomaly` column is the
conjunction of the score-only flags (the flags the `anomaly_only` run
produces from the same inputs) with the two boundary-containment tests
`lowerBoundary ≤ value` and `value ≤ upperBoundary`; consequently the
post-boundary anomaly index set is a subset of the pre-boundary one. -/
theorem margin_gating_narrows (series : List (ℝ × ℝ)) (threshold : ℝ)
    (mag_window score_window : ℕ) (sensitivity : ℝ) (F B : AnomalyFrame)
    (h1 : detectRun series threshold mag_window score_window sensitivity
      DetectMode.anomaly_and_margin = .ok F)
    (h2 : detectRun series threshold mag_window score_window sensitivity
      DetectMode.anomaly_only = .ok B) :
    F.isAnomaly
      = List.zipWith (fun b c => b && c)
          (List.zipWith (fun b c => b && c) B.isAnomaly
            (List.zipWith (fun lo v => cleb lo (Complex.ofReal v))
              (F.lowerBoundary.getD []) F.value))
          (List.zipWith (fun v up => cleb (Complex.ofReal v) up)
            F.value (F.upperBoundary.getD [])) ∧
    (∀ i, F.isAnomaly.getD i false = true →
      B.isAnomaly.getD i false = true) := by
  obtain ⟨ext, hx, -, rfl⟩ := detectRun_ok_elim _ _ _ _ _ _ _ h1
  obtain ⟨ext', hx', -, rfl⟩ := detectRun_ok_elim _ _ _ _ _ _ _ h2
  rw [hx] at hx'
  injection hx' with hee
  subst hee
  have heq : (detectCore series threshold mag_window score_window sensitivity
        DetectMode.anomaly_and_margin ext).isAnomaly
      = List.zipWith (fun b c => b && c)
          (List.zipWith (fun b c => b && c)
            (detectCore series threshold mag_window score_window sensitivity
              DetectMode.anomaly_only ext).isAnomaly
            (List.zipWith (fun lo v => cleb lo (Complex.ofReal v))
              ((detectCore series threshold mag_window score_window sensitivity
                DetectMode.anomaly_and_margin ext).lowerBoundary.getD [])
              (detectCore series threshold mag_window score_window sensitivity
                DetectMode.anomaly_and_margin ext).value))
          (List.zipWith (fun v up => cleb (Complex.ofReal v) up)
            (detectCore series threshold mag_window score_window sensitivity
              DetectMode.anomaly_and_margin ext).value
            ((detectCore series threshold mag_window score_window sensitivity
              DetectMode.anomaly_and_margin ext).upperBoundary.getD [])) := rfl
  refine ⟨heq, fun i hi => ?_⟩
  rw [heq] at hi
  exact getD_zipWith_and_imp _ _ i (getD_zipWith_and_imp _ _ i hi)

/-- Witness for C4 on the concrete run over `series3`. -/
theorem margin_gating_narrows_witness :
    (detectCore series3 1 3 3 1 DetectMode.anomaly_and_margin ext8).isAnomaly
      = List.zipWith (fun b c => b && c)
          (List.zipWith (fun b c => b && c)
            (detectCore series3 1 3 3 1 DetectMode.anomaly_only ext8).isAnomaly
            (List.zipWith (fun lo v => cleb lo (Complex.ofReal v))
              ((detectCore series3 1 3 3 1
                DetectMode.anomaly_and_margin ext8).lowerBoundary.getD [])
              (detectCore series3 1 3 3 1
                DetectMode.anomaly_and_margin ext8).value))
          (List.zipWith (fun v up => cleb (Complex.ofReal v) up)
            (detectCore series3 1 3 3 1
              DetectMode.anomaly_and_margin ext8).value
            ((detectCore series3 1 3 3 1
              DetectMode.anomaly_and_margin ext8).upperBoundary.getD [])) ∧
    (∀ i, (detectCore series3 1 3 3 1
        DetectMode.anomaly_and_margin ext8).isAnomaly.getD i false = true →
      (detectCore series3 1 3 3 1
        DetectMode.anomaly_only ext8).isAnomaly.getD i false = true) :=
  margin_gating_narrows series3 1 3 3 1 _ _
    (detectRun_series3 DetectMode.anomaly_and_margin)
    (detectRun_series3 DetectMode.anomaly_only)

/-- **C3.** The report is computed at most once per instance: a successful
`detect` stores the frame in the cache, a second `detect` on the returned
state yields the identical frame and state, a call on a state whose cache
is already populated returns the cached frame unchanged without invoking
the computation, and the computation runs exactly on the first call. -/
theorem detect_caches (s : SpectralResidualState) (F : AnomalyFrame)
    (s' : SpectralResidualState)
    (h : detect s = .ok (F, s')) :
    s'.anomaly_frame = some F ∧
    detect s' = .ok (F, s') ∧
    (∀ G, s.anomaly_frame = some G → F = G ∧ s' = s) ∧
    (s.anomaly_frame = none →
      detectRun s.series s.threshold s.mag_window s.score_window
        s.sensitivity s.detect_mode = .ok F) := by
  unfold detect at h
  rcases hc : s.anomaly_frame with _ | G
  · rw [hc] at h
    rcases hr : detectRun s.series s.threshold s.mag_window s.score_window
        s.sensitivity s.detect_mode with e | f
    · rw [hr] at h
      exact absurd h (by simp)
    · rw [hr] at h
      simp only [Except.ok.injEq, Prod.mk.injEq] at h
      obtain ⟨hF, hs⟩ := h
      subst hF
      subst hs
      refine ⟨rfl, rfl, fun G hG => absurd hG (fun hx => Option.noConfusion hx),
        fun _ => rfl⟩
  · rw [hc] at h
    simp only [Except.ok.injEq, Prod.mk.injEq] at h
    obtain ⟨hF, hs⟩ := h
    subst hF
    subst hs
    refine ⟨hc, ?_, fun G' hG' => ?_,
      fun hn => absurd hn (fun hx => Option.noConfusion hx)⟩
    · unfold detect
      rw [hc]
    · injection hG' with hG'
      exact ⟨hG', rfl⟩

/-- Witness for C3 on a state whose cache is populated. -/
theorem detect_caches_witness :
    detect cachedState = .ok (emptyFrame, cachedState) ∧
    (cachedState.anomaly_frame = some emptyFrame ∧
     detect cachedState = .ok (emptyFrame, cachedState) ∧
     (∀ G, cachedState.anomaly_frame = some G →
        emptyFrame = G ∧ cachedState = cachedState) ∧
     (cachedState.anomaly_frame = none →
       detectRun cachedState.series cachedState.threshold
         cachedState.mag_window cachedState.score_window
         cachedState.sensitivity cachedState.detect_mode = .ok emptyFrame)) :=
  ⟨rfl, detect_caches cachedState emptyFrame cachedState rfl⟩

end SpectralResidual
